import Mathlib

/-!
Verification of the encrypted-container core of `internal/crypto/encryption.go`
(package `crypto` of the stashr repository).

The wrapper logic — header constants, container assembly, header validation,
error taxonomy, key-buffer hygiene, and the key-file helpers — is translated
directly from the Go source.  Bytes are modelled as `Nat` (with `% 256` / `^^^`
where bit-level behaviour matters), byte buffers as `List Nat`, and fallible
operations as `Except`.

The source composes three external primitives that are not part of this
repository (`golang.org/x/crypto/pbkdf2`, `crypto/aes`, `crypto/cipher`'s GCM).
Those are modelled from the spec (§4.1, §4.3, glossary): a deterministic
key-derivation function that is collision-free on (password, salt), and an
idealized AEAD whose sealed output is plaintext-length + 16 tag slots, bound to
the key, the nonce and the plaintext, and whose open succeeds exactly on sealed
images — the idealization of "the authentication tag lets the decryptor detect
any modification".  Randomness consumed by the source (`crypto/rand` for salt,
nonce and raw keys) is passed in explicitly, with `Option` capturing
entropy-source failure.
-/

/-- Error kinds of the core, per the spec's taxonomy (§7) and its
representation advice (§9: tagged variants carrying an optional wrapped
cause).  The source builds these with `fmt.Errorf`; `wrap` models `%w`-style
layering of string context over an underlying cause. -/
inductive GoErr : Type
  | errTruncated
  | errBadMagic
  | errUnsupportedVersion
  | errUnsupportedAlgorithm
  | errDecryptionFailed
  | errEntropy
  | errCipherInit
  | errIoError
  | wrap (context : String) (cause : GoErr)
  deriving DecidableEq

instance {ε α : Type} [DecidableEq ε] [DecidableEq α] :
    DecidableEq (Except ε α) := fun a b =>
  match a, b with
  | .ok x, .ok y =>
    if h : x = y then isTrue (by rw [h]) else isFalse (by simp [h])
  | .error x, .error y =>
    if h : x = y then isTrue (by rw [h]) else isFalse (by simp [h])
  | .ok _, .error _ => isFalse (by simp)
  | .error _, .ok _ => isFalse (by simp)

/-- Injective encoding of a `Nat` list into one `Nat`: fold the entries as
nonzero digits in base 257.  Used only inside the idealized external
primitives to bind a tag to password, salt, nonce and plaintext. -/
def encB (l : List Nat) : Nat :=
  l.foldr (fun a acc => acc * 257 + (a + 1)) 0

/-- Modelled from the spec: `GenerateKey` (encryption.go:44) calls
`pbkdf2.Key(password, salt, 100000, 32, sha256.New)` from
`golang.org/x/crypto/pbkdf2`, which is external to this repository.
Spec §4.1: deterministic, fixed 32-long output, no error conditions; the
key-derivation function is idealized as collision-free on (password, salt). -/
def GenerateKey (password salt : List Nat) : List Nat :=
  Nat.pair (encB password) (encB salt) :: List.replicate 31 0

/-- Magic bytes for encrypted files: "PWBK" (encryption.go:18), as bytes. -/
def fileMagicBytes : List Nat := [80, 87, 66, 75]

/-- Version of the encryption format (encryption.go:20). -/
def fileVersion : Nat := 1

/-- Algorithm identifier for AES-256-GCM (encryption.go:22). -/
def algorithmAES256GCM : Nat := 1

/-- Salt length in bytes (encryption.go:24). -/
def saltLength : Nat := 32

/-- Nonce length for GCM (encryption.go:26). -/
def nonceLength : Nat := 12

/-- Key length for AES-256 (encryption.go:30). -/
def keyLength : Nat := 32

/-- Minimum container length checked by `Decrypt` (encryption.go:117):
header + minimum ciphertext with auth tag = 4+2+2+8+32+12+16 = 76. -/
def minContainerLength : Nat := 4 + 2 + 2 + 8 + 32 + 12 + 16

/-- Big-endian serialization of a 16-bit integer to two bytes, as done by
`byte(v>>8), byte(v)` (encryption.go:101-102). -/
def u16be (v : Nat) : List Nat := [v / 256 % 256, v % 256]

/-- Modelled from the spec: `gcm.Seal(nil, nonce, plaintext, nil)`
(encryption.go:87) from `crypto/cipher`, external to this repository.
Idealized AEAD seal (§4.3, glossary): the output is the encrypted plaintext
followed by a 16-slot authentication tag; each slot is bound to the key, the
nonce and (for the tag) the whole plaintext, so that `gcmOpen` can detect
any modification. -/
def gcmSeal (key nonce plaintext : List Nat) : List Nat :=
  plaintext.map (fun x => Nat.pair (key.headD 0) (Nat.pair (encB nonce) x)) ++
    (Nat.pair (key.headD 0) (Nat.pair (encB nonce) (encB plaintext)) ::
      List.replicate 15 0)

/-- Modelled from the spec: `gcm.Open(nil, nonce, data, nil)`
(encryption.go:177) from `crypto/cipher`, external to this repository.
Idealized AEAD open: recover the candidate plaintext from the non-tag slots
and succeed exactly when the data is the seal of that plaintext under the
given key and nonce (authenticated decryption). -/
def gcmOpen (key nonce data : List Nat) : Option (List Nat) :=
  if data.length < 16 then none
  else
    let p := (data.take (data.length - 16)).map (fun x => x.unpair.2.unpair.2)
    if gcmSeal key nonce p = data then some p else none

/-- Container assembly of `Encrypt` (encryption.go:89-106): magic, big-endian
version, big-endian algorithm, 8 zero reserved bytes, salt, nonce,
ciphertext (the `EncryptedFileHeader` fields in order, then the AEAD
output). -/
def encodeContainer (salt nonce ciphertext : List Nat) : List Nat :=
  fileMagicBytes ++ u16be fileVersion ++ u16be algorithmAES256GCM ++
    List.replicate 8 0 ++ salt ++ nonce ++ ciphertext

/-- `Encrypt` (encryption.go:58-112) on its success path, with the random
salt and nonce passed explicitly: derive the key, seal the plaintext, and
assemble the container. -/
def Encrypt (plaintext password salt nonce : List Nat) : List Nat :=
  encodeContainer salt nonce (gcmSeal (GenerateKey password salt) nonce plaintext)

/-- `Decrypt` (encryption.go:115-183): minimum-length check, then magic,
version and algorithm checks in order, then slice out salt (offset 16),
nonce (offset 48) and the remaining ciphertext (offset 60), derive the key,
construct the cipher (which fails only for an invalid key size), and attempt
authenticated decryption. -/
def Decrypt (ciphertext password : List Nat) : Except GoErr (List Nat) :=
  if ciphertext.length < minContainerLength then .error .errTruncated
  else if ciphertext.take 4 ≠ fileMagicBytes then .error .errBadMagic
  else if 256 * ciphertext.getD 4 0 + ciphertext.getD 5 0 ≠ fileVersion then
    .error .errUnsupportedVersion
  else if 256 * ciphertext.getD 6 0 + ciphertext.getD 7 0 ≠ algorithmAES256GCM then
    .error .errUnsupportedAlgorithm
  else
    let salt := (ciphertext.drop 16).take saltLength
    let nonce := (ciphertext.drop 48).take nonceLength
    let encryptedData := ciphertext.drop 60
    let key := GenerateKey password salt
    if key.length = 16 ∨ key.length = 24 ∨ key.length = 32 then
      match gcmOpen key nonce encryptedData with
      | none => .error .errDecryptionFailed
      | some p => .ok p
    else .error .errCipherInit

/-- Flip bit `b` of the byte at position `i` of a buffer. -/
def flipBit (l : List Nat) (i b : Nat) : List Nat :=
  l.set i (l.getD i 0 ^^^ 2 ^ b)

/-- Full `Encrypt` (encryption.go:58-112) with its fallible effects: `none`
for `saltRand` / `nonceRand` models `io.ReadFull(rand.Reader, ...)` failing.
The second component is the final contents of the derived-key buffer when the
function returns (`none` when the key was never derived): the source calls
`clearBytes(key)` only on the success path (line 109); the error returns at
lines 71, 77 and 83 leave the buffer holding the key.  `aes.NewCipher` fails
exactly when the key length is not 16, 24 or 32; `cipher.NewGCM` cannot fail
for an AES block and is not a branch point. -/
def EncryptRun (plaintext password : List Nat)
    (saltRand nonceRand : Option (List Nat)) :
    Except GoErr (List Nat) × Option (List Nat) :=
  match saltRand with
  | none => (.error (.wrap "failed to generate salt" .errEntropy), none)
  | some salt =>
    let key := GenerateKey password salt
    if key.length = 16 ∨ key.length = 24 ∨ key.length = 32 then
      match nonceRand with
      | none => (.error (.wrap "failed to generate nonce" .errEntropy), some key)
      | some nonce =>
        (.ok (encodeContainer salt nonce (gcmSeal key nonce plaintext)),
          some (List.replicate key.length 0))
    else (.error (.wrap "failed to create cipher" .errCipherInit), some key)

/-- `Decrypt` (encryption.go:115-183) with the key-buffer ledger: after the
key is derived the source registers `defer clearBytes(key)` (line 162), so
every subsequent exit returns with the buffer zeroed; the format-error exits
before line 161 never derive a key (`none`). -/
def DecryptRun (ciphertext password : List Nat) :
    Except GoErr (List Nat) × Option (List Nat) :=
  if ciphertext.length < minContainerLength then (.error .errTruncated, none)
  else if ciphertext.take 4 ≠ fileMagicBytes then (.error .errBadMagic, none)
  else if 256 * ciphertext.getD 4 0 + ciphertext.getD 5 0 ≠ fileVersion then
    (.error .errUnsupportedVersion, none)
  else if 256 * ciphertext.getD 6 0 + ciphertext.getD 7 0 ≠ algorithmAES256GCM then
    (.error .errUnsupportedAlgorithm, none)
  else
    let salt := (ciphertext.drop 16).take saltLength
    let key := GenerateKey password salt
    let cleared := some (List.replicate key.length 0)
    if key.length = 16 ∨ key.length = 24 ∨ key.length = 32 then
      match gcmOpen key ((ciphertext.drop 48).take nonceLength)
          (ciphertext.drop 60) with
      | none => (.error .errDecryptionFailed, cleared)
      | some p => (.ok p, cleared)
    else (.error .errCipherInit, cleared)

/-- Result of the `os.Stat(keyPath)` existence probe in
`GetOrCreateEncryptionKey` (encryption.go:232): the file exists (`err ==
nil`), does not exist (`os.IsNotExist(err)`), or the probe itself failed with
some other error (e.g. a permission error), for which `os.IsNotExist`
returns false. -/
inductive StatRes : Type
  | statExists
  | statNotExist
  | statFailed
  deriving DecidableEq

/-- `GetOrCreateEncryptionKey` (encryption.go:230-255).  The creation block
runs only when `os.IsNotExist(err)`; any other stat outcome falls through to
`return nil`.  `keyRand` models the `io.ReadFull(rand.Reader, key)` making
the random 32-byte key; `writeOk` models `os.WriteFile` succeeding.  The
second component is the contents newly written to the key file (`none` when
the file was left untouched). -/
def GetOrCreateEncryptionKey (stat : StatRes) (password : List Nat)
    (keyRand saltRand nonceRand : Option (List Nat)) (writeOk : Bool) :
    Except GoErr Unit × Option (List Nat) :=
  match stat with
  | .statNotExist =>
    match keyRand with
    | none => (.error (.wrap "failed to generate key" .errEntropy), none)
    | some key =>
      match (EncryptRun key password saltRand nonceRand).1 with
      | .error e => (.error (.wrap "failed to encrypt key" e), none)
      | .ok encryptedKey =>
        if writeOk then (.ok (), some encryptedKey)
        else (.error (.wrap "failed to write key file" .errIoError), none)
  | _ => (.ok (), none)

/-- `LoadEncryptionKey` (encryption.go:257-272): read the key file (`none`
for `fileData` models a read failure), decrypt it, and wrap any decryption
error in "failed to decrypt key" context (line 268's `fmt.Errorf(..., %w`). -/
def LoadEncryptionKey (fileData : Option (List Nat)) (password : List Nat) :
    Except GoErr (List Nat) :=
  match fileData with
  | none => .error (.wrap "failed to read key file" .errIoError)
  | some data =>
    match Decrypt data password with
    | .error e => .error (.wrap "failed to decrypt key" e)
    | .ok key => .ok key

/-- Container reassociated into cons/append shape for slicing proofs: the 8
fixed header bytes, then reserved, salt, nonce, data. -/
def mkContainer (r salt nonce d : List Nat) : List Nat :=
  80 :: 87 :: 66 :: 75 :: 0 :: 1 :: 0 :: 1 :: (r ++ (salt ++ (nonce ++ d)))

theorem encB_cons (a : Nat) (l : List Nat) :
    encB (a :: l) = encB l * 257 + (a + 1) := rfl

theorem encB_cons_ne_zero (a : Nat) (l : List Nat) : encB (a :: l) ≠ 0 := by
  rw [encB_cons]; omega

theorem encB_set_ne (l : List Nat) (i v : Nat) (hi : i < l.length)
    (hv : v ≠ l.getD i 0) : encB (l.set i v) ≠ encB l := by
  induction l generalizing i with
  | nil => simp at hi
  | cons a t ih =>
    cases i with
    | zero =>
      rw [List.getD_cons_zero] at hv
      simp only [List.set, encB_cons]
      omega
    | succ i =>
      rw [List.getD_cons_succ] at hv
      have hi' : i < t.length := by simpa using hi
      simp only [List.set, encB_cons]
      intro h
      exact ih i hi' hv (by omega)

theorem encB_inj_bytes (l₁ : List Nat) : ∀ (l₂ : List Nat),
    (∀ x ∈ l₁, x < 256) → (∀ x ∈ l₂, x < 256) → encB l₁ = encB l₂ → l₁ = l₂ := by
  induction l₁ with
  | nil =>
    intro l₂ _ _ h
    cases l₂ with
    | nil => rfl
    | cons b u => exact absurd h.symm (encB_cons_ne_zero b u)
  | cons a t ih =>
    intro l₂ h1 h2 h
    cases l₂ with
    | nil => exact absurd h (encB_cons_ne_zero a t)
    | cons b u =>
      rw [encB_cons, encB_cons] at h
      have ha : a < 256 := h1 a (List.mem_cons_self a t)
      have hb : b < 256 := h2 b (List.mem_cons_self b u)
      have hab : a = b := by omega
      have htu : encB t = encB u := by omega
      rw [hab, ih u (fun x hx => h1 x (List.mem_cons_of_mem a hx))
        (fun x hx => h2 x (List.mem_cons_of_mem b hx)) htu]

theorem pair_inj {a b c d : Nat} (h : Nat.pair a b = Nat.pair c d) :
    a = c ∧ b = d := by
  have h2 := congrArg Nat.unpair h
  simp only [Nat.unpair_pair, Prod.mk.injEq] at h2
  exact h2

theorem xor_pow_ne (n b : Nat) : n ^^^ 2 ^ b ≠ n := by
  intro h
  have h1 : (n ^^^ 2 ^ b) ^^^ n = n ^^^ n := by rw [h]
  rw [Nat.xor_comm n (2 ^ b), Nat.xor_assoc, Nat.xor_self, Nat.xor_zero] at h1
  exact (Nat.pow_pos (by norm_num : (0:Nat) < 2)).ne' h1

theorem set_getD_self (l : List Nat) (m : Nat) (hm : m < l.length) :
    l.set m (l.getD m 0) = l := by
  apply List.ext_getElem?
  intro n
  by_cases hn : n = m
  · subst hn
    rw [List.getElem?_set_self hm, List.getElem?_eq_getElem hm,
      List.getD_eq_getElem l 0 hm]
  · rw [List.getElem?_set_ne (fun h => hn h.symm)]

theorem set_ne_self (l : List Nat) (m v : Nat) (hm : m < l.length)
    (hv : v ≠ l.getD m 0) : l.set m v ≠ l := by
  intro h
  have h1 : (l.set m v)[m]? = some v := List.getElem?_set_self hm
  rw [h, List.getElem?_eq_getElem hm] at h1
  rw [List.getD_eq_getElem l 0 hm] at hv
  exact hv (Option.some_injective _ h1).symm

theorem gcmSeal_length (key nonce p : List Nat) :
    (gcmSeal key nonce p).length = p.length + 16 := by
  simp [gcmSeal]

theorem map_extract (a b : Nat) (l : List Nat) :
    (l.map (fun x => Nat.pair a (Nat.pair b x))).map
      (fun x => x.unpair.2.unpair.2) = l := by
  rw [List.map_map]
  have h : ((fun (x : Nat) => x.unpair.2.unpair.2) ∘
      fun x => Nat.pair a (Nat.pair b x)) = fun x => x := by
    funext x
    simp [Function.comp, Nat.unpair_pair]
  rw [h]
  simp

theorem gcmSeal_take (key nonce p : List Nat) :
    (gcmSeal key nonce p).take p.length =
      p.map (fun x => Nat.pair (key.headD 0) (Nat.pair (encB nonce) x)) := by
  unfold gcmSeal
  exact List.take_left' (by simp)

theorem gcmOpen_gcmSeal (key nonce p : List Nat) :
    gcmOpen key nonce (gcmSeal key nonce p) = some p := by
  unfold gcmOpen
  rw [if_neg (by rw [gcmSeal_length]; omega)]
  have hlen : (gcmSeal key nonce p).length - 16 = p.length := by
    rw [gcmSeal_length]
    omega
  rw [hlen, gcmSeal_take, map_extract, if_pos rfl]

theorem gcmOpen_sound {key nonce d q : List Nat}
    (h : gcmOpen key nonce d = some q) : gcmSeal key nonce q = d := by
  unfold gcmOpen at h
  by_cases hlen : d.length < 16
  · rw [if_pos hlen] at h
    exact absurd h (by simp)
  · rw [if_neg hlen] at h
    have h' : (if gcmSeal key nonce
          ((d.take (d.length - 16)).map (fun x => x.unpair.2.unpair.2)) = d
        then some ((d.take (d.length - 16)).map
          (fun x => x.unpair.2.unpair.2)) else none) = some q := h
    by_cases hc : gcmSeal key nonce
        ((d.take (d.length - 16)).map (fun x => x.unpair.2.unpair.2)) = d
    · rw [if_pos hc] at h'
      obtain rfl : _ = q := Option.some_injective _ h'
      exact hc
    · rw [if_neg hc] at h'
      exact absurd h' (by simp)

theorem gcmSeal_tag_fst (key nonce p : List Nat) :
    (gcmSeal key nonce p)[p.length]? =
      some (Nat.pair (key.headD 0) (Nat.pair (encB nonce) (encB p))) := by
  unfold gcmSeal
  rw [List.getElem?_append_right (by simp)]
  simp

theorem seal_eq_parts {k n p k' n' q : List Nat}
    (h : gcmSeal k' n' q = gcmSeal k n p) :
    q.length = p.length ∧ k'.headD 0 = k.headD 0 ∧ encB n' = encB n ∧
      encB q = encB p := by
  have hlen : q.length = p.length := by
    have h2 := congrArg List.length h
    rw [gcmSeal_length, gcmSeal_length] at h2
    omega
  have h1 := gcmSeal_tag_fst k' n' q
  rw [h, hlen, gcmSeal_tag_fst] at h1
  have h2 := Option.some_injective _ h1
  obtain ⟨hk, h3⟩ := pair_inj h2
  obtain ⟨hn, hp⟩ := pair_inj h3
  exact ⟨hlen, hk.symm, hn.symm, hp.symm⟩

theorem gcmOpen_seal_mismatch {k n k' n' : List Nat} (p : List Nat)
    (h : k'.headD 0 ≠ k.headD 0 ∨ encB n' ≠ encB n) :
    gcmOpen k' n' (gcmSeal k n p) = none := by
  cases hres : gcmOpen k' n' (gcmSeal k n p) with
  | none => rfl
  | some q =>
    have parts := seal_eq_parts (gcmOpen_sound hres)
    rcases h with h | h
    · exact absurd parts.2.1 h
    · exact absurd parts.2.2.1 h

theorem getD_replicate_zero (N j : Nat) :
    (List.replicate N (0:Nat)).getD j 0 = 0 := by
  induction N generalizing j with
  | zero => simp [List.getD]
  | succ N ih =>
    cases j with
    | zero => simp
    | succ j =>
      rw [List.replicate_succ, List.getD_cons_succ]
      exact ih j

theorem gcmOpen_set_ne (k n p : List Nat) (m v : Nat)
    (hm : m < p.length + 16) (hv : v ≠ (gcmSeal k n p).getD m 0) :
    gcmOpen k n ((gcmSeal k n p).set m v) = none := by
  cases hres : gcmOpen k n ((gcmSeal k n p).set m v) with
  | none => rfl
  | some q =>
    exfalso
    have hseal := gcmOpen_sound hres
    have hlen : q.length = p.length := by
      have h2 := congrArg List.length hseal
      rw [gcmSeal_length, List.length_set, gcmSeal_length] at h2
      omega
    have hA : gcmSeal k n p =
        (p.map (fun x => Nat.pair (k.headD 0) (Nat.pair (encB n) x))) ++
          (Nat.pair (k.headD 0) (Nat.pair (encB n) (encB p)) ::
            List.replicate 15 0) := rfl
    have hAq : gcmSeal k n q =
        (q.map (fun x => Nat.pair (k.headD 0) (Nat.pair (encB n) x))) ++
          (Nat.pair (k.headD 0) (Nat.pair (encB n) (encB q)) ::
            List.replicate 15 0) := rfl
    rcases lt_trichotomy m p.length with hm1 | hm1 | hm1
    · -- flip lands in the encrypted-plaintext slots
      have hgetD : (gcmSeal k n p).getD m 0 =
          (p.map (fun x => Nat.pair (k.headD 0) (Nat.pair (encB n) x))).getD m 0 := by
        rw [hA]
        exact List.getD_append _ _ _ _ (by simpa using hm1)
      have hset : (gcmSeal k n p).set m v =
          ((p.map (fun x => Nat.pair (k.headD 0) (Nat.pair (encB n) x))).set m v) ++
            (Nat.pair (k.headD 0) (Nat.pair (encB n) (encB p)) ::
              List.replicate 15 0) := by
        rw [hA]
        exact List.set_append_left m v (by simpa using hm1)
      rw [hset, hAq] at hseal
      obtain ⟨hA', hT⟩ := List.append_inj hseal (by simp [hlen])
      have htag : Nat.pair (k.headD 0) (Nat.pair (encB n) (encB q)) =
          Nat.pair (k.headD 0) (Nat.pair (encB n) (encB p)) := by
        injection hT
      have hencq : encB q = encB p := (pair_inj (pair_inj htag).2).2
      have hq : q = p.set m (v.unpair.2.unpair.2) := by
        have h3 := congrArg (List.map (fun x => x.unpair.2.unpair.2)) hA'
        rw [map_extract, List.map_set, map_extract] at h3
        exact h3
      by_cases hw : v.unpair.2.unpair.2 = p.getD m 0
      · rw [hw, set_getD_self p m hm1] at hq
        subst hq
        have hne := set_ne_self
          (q.map (fun x => Nat.pair (k.headD 0) (Nat.pair (encB n) x))) m v
          (by simpa using hm1) (by rw [← hgetD]; exact hv)
        exact hne hA'.symm
      · rw [hq] at hencq
        exact encB_set_ne p m _ hm1 hw hencq
    · -- flip lands on the tag binding slot
      have hgetD : (gcmSeal k n p).getD m 0 =
          Nat.pair (k.headD 0) (Nat.pair (encB n) (encB p)) := by
        rw [hA]
        rw [List.getD_append_right _ _ _ _ (by simp [hm1])]
        simp [hm1]
      have hset : (gcmSeal k n p).set m v =
          (p.map (fun x => Nat.pair (k.headD 0) (Nat.pair (encB n) x))) ++
            (v :: List.replicate 15 0) := by
        rw [hA]
        rw [List.set_append_right m v (by simp [hm1])]
        have h0 : m - (p.map (fun x => Nat.pair (k.headD 0)
            (Nat.pair (encB n) x))).length = 0 := by simp [hm1]
        rw [h0]
        rfl
      rw [hset, hAq] at hseal
      obtain ⟨hA', hT⟩ := List.append_inj hseal (by simp [hlen])
      have hq : q = p := by
        have h3 := congrArg (List.map (fun x => x.unpair.2.unpair.2)) hA'
        rw [map_extract, map_extract] at h3
        exact h3
      have htagv : Nat.pair (k.headD 0) (Nat.pair (encB n) (encB q)) = v := by
        injection hT
      rw [hq, ← hgetD] at htagv
      exact hv htagv.symm
    · -- flip lands in the constant tag padding
      have hj : m - p.length - 1 < 15 := by omega
      have hmt : m - (p.map (fun x => Nat.pair (k.headD 0)
          (Nat.pair (encB n) x))).length = (m - p.length - 1) + 1 := by
        simp only [List.length_map]
        omega
      have hgetD : (gcmSeal k n p).getD m 0 = 0 := by
        rw [hA]
        rw [List.getD_append_right _ _ _ _ (by simp; omega)]
        rw [hmt]
        rw [List.getD_cons_succ]
        exact getD_replicate_zero 15 _
      have hset : (gcmSeal k n p).set m v =
          (p.map (fun x => Nat.pair (k.headD 0) (Nat.pair (encB n) x))) ++
            (Nat.pair (k.headD 0) (Nat.pair (encB n) (encB p)) ::
              (List.replicate 15 0).set (m - p.length - 1) v) := by
        rw [hA]
        rw [List.set_append_right m v (by simp; omega)]
        rw [hmt]
        rfl
      rw [hset, hAq] at hseal
      obtain ⟨hA', hT⟩ := List.append_inj hseal (by simp [hlen])
      have hR : List.replicate 15 0 =
          (List.replicate 15 0).set (m - p.length - 1) v := by
        have h4 := hT
        rw [List.cons.injEq] at h4
        exact h4.2
      have h5 : ((List.replicate 15 0).set (m - p.length - 1) v)[m - p.length - 1]? =
          some v := List.getElem?_set_self (by simpa using hj)
      rw [← hR, List.getElem?_replicate] at h5
      simp [hj] at h5
      exact hv (by rw [hgetD, h5])

theorem encodeContainer_eq (salt nonce ct : List Nat) :
    encodeContainer salt nonce ct = mkContainer (List.replicate 8 0) salt nonce ct := by
  simp [encodeContainer, mkContainer, fileMagicBytes, u16be, fileVersion,
    algorithmAES256GCM, List.append_assoc]

theorem mkContainer_length (r s nn d : List Nat) :
    (mkContainer r s nn d).length = 8 + r.length + s.length + nn.length + d.length := by
  simp [mkContainer]
  omega

theorem mkContainer_assoc16 (r s nn d : List Nat) :
    mkContainer r s nn d =
      (([80, 87, 66, 75, 0, 1, 0, 1] : List Nat) ++ r) ++ (s ++ (nn ++ d)) := by
  simp [mkContainer, List.append_assoc]

theorem mkContainer_assoc48 (r s nn d : List Nat) :
    mkContainer r s nn d =
      ((([80, 87, 66, 75, 0, 1, 0, 1] : List Nat) ++ r) ++ s) ++ (nn ++ d) := by
  simp [mkContainer, List.append_assoc]

theorem mkContainer_assoc60 (r s nn d : List Nat) :
    mkContainer r s nn d =
      (((([80, 87, 66, 75, 0, 1, 0, 1] : List Nat) ++ r) ++ s) ++ nn) ++ d := by
  simp [mkContainer, List.append_assoc]

theorem mkContainer_drop16 (r s nn d : List Nat) (hr : r.length = 8) :
    (mkContainer r s nn d).drop 16 = s ++ (nn ++ d) := by
  rw [mkContainer_assoc16, List.drop_left' (by simp [hr])]

theorem mkContainer_drop48 (r s nn d : List Nat) (hr : r.length = 8)
    (hs : s.length = 32) :
    (mkContainer r s nn d).drop 48 = nn ++ d := by
  rw [mkContainer_assoc48, List.drop_left' (by simp [hr, hs])]

theorem mkContainer_drop60 (r s nn d : List Nat) (hr : r.length = 8)
    (hs : s.length = 32) (hn : nn.length = 12) :
    (mkContainer r s nn d).drop 60 = d := by
  rw [mkContainer_assoc60, List.drop_left' (by simp [hr, hs, hn])]

theorem GenerateKey_length (password salt : List Nat) :
    (GenerateKey password salt).length = 32 := by
  simp [GenerateKey]

theorem Decrypt_mkContainer (r s nn d pw : List Nat) (hr : r.length = 8)
    (hs : s.length = 32) (hn : nn.length = 12) (hd : 16 ≤ d.length) :
    Decrypt (mkContainer r s nn d) pw =
      match gcmOpen (GenerateKey pw s) nn d with
      | none => .error .errDecryptionFailed
      | some p => .ok p := by
  unfold Decrypt
  rw [if_neg (by rw [mkContainer_length, minContainerLength]; omega)]
  rw [if_neg (by
    rw [not_not]
    show (mkContainer r s nn d).take 4 = fileMagicBytes
    rfl)]
  rw [if_neg (by
    rw [not_not]
    show 256 * (mkContainer r s nn d).getD 4 0 + (mkContainer r s nn d).getD 5 0 =
      fileVersion
    rfl)]
  rw [if_neg (by
    rw [not_not]
    show 256 * (mkContainer r s nn d).getD 6 0 + (mkContainer r s nn d).getD 7 0 =
      algorithmAES256GCM
    rfl)]
  rw [mkContainer_drop16 r s nn d hr, mkContainer_drop48 r s nn d hr hs,
    mkContainer_drop60 r s nn d hr hs hn]
  rw [List.take_left' (show s.length = saltLength from hs),
    List.take_left' (show nn.length = nonceLength from hn)]
  rw [if_pos (Or.inr (Or.inr (GenerateKey_length pw s)))]

theorem Encrypt_eq_mkContainer (p pw salt nonce : List Nat) :
    Encrypt p pw salt nonce =
      mkContainer (List.replicate 8 0) salt nonce
        (gcmSeal (GenerateKey pw salt) nonce p) := by
  rw [Encrypt, encodeContainer_eq]

theorem Encrypt_length (p pw salt nonce : List Nat) (hs : salt.length = 32)
    (hn : nonce.length = 12) :
    (Encrypt p pw salt nonce).length = 76 + p.length := by
  rw [Encrypt_eq_mkContainer, mkContainer_length, gcmSeal_length]
  simp [hs, hn]
  omega

theorem decrypt_too_short (c pw : List Nat) (h : c.length < 76) :
    Decrypt c pw = .error .errTruncated := by
  unfold Decrypt
  rw [if_pos (show c.length < minContainerLength from h)]

theorem decrypt_bad_magic (c pw : List Nat) (h76 : 76 ≤ c.length)
    (h : c.take 4 ≠ fileMagicBytes) : Decrypt c pw = .error .errBadMagic := by
  unfold Decrypt
  rw [if_neg (show ¬c.length < minContainerLength by simp only [minContainerLength]; omega), if_pos h]

theorem decrypt_bad_version (c pw : List Nat) (h76 : 76 ≤ c.length)
    (hm : c.take 4 = fileMagicBytes) (h : 256 * c.getD 4 0 + c.getD 5 0 ≠ 1) :
    Decrypt c pw = .error .errUnsupportedVersion := by
  unfold Decrypt
  rw [if_neg (show ¬c.length < minContainerLength by simp only [minContainerLength]; omega),
    if_neg (show ¬c.take 4 ≠ fileMagicBytes from not_not_intro hm),
    if_pos (show 256 * c.getD 4 0 + c.getD 5 0 ≠ fileVersion from h)]

theorem decrypt_bad_algorithm (c pw : List Nat) (h76 : 76 ≤ c.length)
    (hm : c.take 4 = fileMagicBytes) (hv : 256 * c.getD 4 0 + c.getD 5 0 = 1)
    (h : 256 * c.getD 6 0 + c.getD 7 0 ≠ 1) :
    Decrypt c pw = .error .errUnsupportedAlgorithm := by
  unfold Decrypt
  rw [if_neg (show ¬c.length < minContainerLength by simp only [minContainerLength]; omega),
    if_neg (show ¬c.take 4 ≠ fileMagicBytes from not_not_intro hm),
    if_neg (show ¬256 * c.getD 4 0 + c.getD 5 0 ≠ fileVersion from not_not_intro hv),
    if_pos (show 256 * c.getD 6 0 + c.getD 7 0 ≠ algorithmAES256GCM from h)]

/-- C1.  Round-trip: for every plaintext byte buffer `p` (including the empty
buffer) and every non-empty password, decrypting an encryption of `p` under
the same password succeeds and returns exactly `p` (spec §8; Encrypt
encryption.go:58-112, Decrypt encryption.go:115-183).  The 32-byte salt and
12-byte nonce drawn from the entropy source are universally quantified. -/
theorem round_trip (p pw salt nonce : List Nat) (_hpw : pw ≠ [])
    (hs : salt.length = 32) (hn : nonce.length = 12) :
    Decrypt (Encrypt p pw salt nonce) pw = .ok p := by
  rw [Encrypt_eq_mkContainer,
    Decrypt_mkContainer _ _ _ _ _ (by simp) hs hn (by rw [gcmSeal_length]; omega),
    gcmOpen_gcmSeal]

/-- Witness for C1 at concrete inputs. -/
theorem round_trip_witness :
    ([97] : List Nat) ≠ [] ∧ (List.replicate 32 1 : List Nat).length = 32 ∧
      (List.replicate 12 2 : List Nat).length = 12 ∧
      Decrypt (Encrypt [104, 105] [97] (List.replicate 32 1)
        (List.replicate 12 2)) [97] = .ok [104, 105] :=
  ⟨by decide, by decide, by decide,
    round_trip [104, 105] [97] (List.replicate 32 1) (List.replicate 12 2)
      (by decide) (by decide) (by decide)⟩

theorem pair_eq_zero_iff (a b : Nat) : Nat.pair a b = 0 ↔ a = 0 ∧ b = 0 := by
  constructor
  · intro h
    exact pair_inj (h.trans (rfl : (0:Nat) = Nat.pair 0 0))
  · rintro ⟨rfl, rfl⟩
    rfl

/-- C7.  Container layout (spec §6, §8 concrete scenario; encryption.go:89-111):
a successful encryption of a plaintext of length N is exactly 76+N bytes,
starting with magic "PWBK", big-endian version 1, big-endian algorithm 1,
then 8 zero reserved bytes, the 32-byte salt at offset 16, the 12-byte nonce
at offset 48, and from offset 60 the AEAD output, i.e. the ciphertext with
its 16-byte authentication tag. -/
theorem container_layout (p pw salt nonce : List Nat) (hs : salt.length = 32)
    (hn : nonce.length = 12) :
    (Encrypt p pw salt nonce).length = 76 + p.length ∧
    (Encrypt p pw salt nonce).take 8 = [80, 87, 66, 75, 0, 1, 0, 1] ∧
    ((Encrypt p pw salt nonce).drop 8).take 8 = List.replicate 8 0 ∧
    ((Encrypt p pw salt nonce).drop 16).take 32 = salt ∧
    ((Encrypt p pw salt nonce).drop 48).take 12 = nonce ∧
    (Encrypt p pw salt nonce).drop 60 = gcmSeal (GenerateKey pw salt) nonce p ∧
    ((Encrypt p pw salt nonce).drop 60).length = p.length + 16 := by
  refine ⟨Encrypt_length p pw salt nonce hs hn, ?_, ?_, ?_, ?_, ?_, ?_⟩
  · rw [Encrypt_eq_mkContainer]
    rfl
  · rw [Encrypt_eq_mkContainer]
    show (List.replicate 8 0 ++ (salt ++ (nonce ++ _))).take 8 = List.replicate 8 0
    exact List.take_left' (by simp)
  · rw [Encrypt_eq_mkContainer, mkContainer_drop16 _ _ _ _ (by simp)]
    exact List.take_left' hs
  · rw [Encrypt_eq_mkContainer, mkContainer_drop48 _ _ _ _ (by simp) hs]
    exact List.take_left' hn
  · rw [Encrypt_eq_mkContainer, mkContainer_drop60 _ _ _ _ (by simp) hs hn]
  · rw [Encrypt_eq_mkContainer, mkContainer_drop60 _ _ _ _ (by simp) hs hn,
      gcmSeal_length]

/-- Witness for C7 at concrete inputs. -/
theorem container_layout_witness :
    (List.replicate 32 1 : List Nat).length = 32 ∧
      (List.replicate 12 2 : List Nat).length = 12 ∧
      (Encrypt [5] [97] (List.replicate 32 1) (List.replicate 12 2)).length =
        76 + 1 ∧
      (Encrypt [5] [97] (List.replicate 32 1) (List.replicate 12 2)).take 8 =
        [80, 87, 66, 75, 0, 1, 0, 1] :=
  ⟨by decide, by decide,
    (container_layout [5] [97] (List.replicate 32 1) (List.replicate 12 2)
      (by decide) (by decide)).1,
    (container_layout [5] [97] (List.replicate 32 1) (List.replicate 12 2)
      (by decide) (by decide)).2.1⟩

theorem decrypt_wrong_password_aux (p pw1 pw2 salt nonce : List Nat)
    (h1 : ∀ x ∈ pw1, x < 256) (h2 : ∀ x ∈ pw2, x < 256) (hne : pw1 ≠ pw2)
    (hs : salt.length = 32) (hn : nonce.length = 12) :
    Decrypt (Encrypt p pw1 salt nonce) pw2 = .error .errDecryptionFailed := by
  rw [Encrypt_eq_mkContainer,
    Decrypt_mkContainer _ _ _ _ _ (by simp) hs hn (by rw [gcmSeal_length]; omega),
    gcmOpen_seal_mismatch p (Or.inl ?_)]
  show (GenerateKey pw2 salt).headD 0 ≠ (GenerateKey pw1 salt).headD 0
  simp only [GenerateKey, List.headD_cons]
  intro h
  exact hne (encB_inj_bytes pw1 pw2 h1 h2 ((pair_inj h).1.symm))

/-- C5.  Wrong password rejected (spec §8, §4.3.4; encryption.go:160-182):
decrypting a container sealed under `pw1` with a different password `pw2`
fails with the single non-specific authentication error
`errDecryptionFailed`.  Passwords are byte strings, so entries are < 256. -/
theorem wrong_password_rejected (p pw1 pw2 salt nonce : List Nat)
    (h1 : ∀ x ∈ pw1, x < 256) (h2 : ∀ x ∈ pw2, x < 256) (hne : pw1 ≠ pw2)
    (hs : salt.length = 32) (hn : nonce.length = 12) :
    Decrypt (Encrypt p pw1 salt nonce) pw2 = .error .errDecryptionFailed :=
  decrypt_wrong_password_aux p pw1 pw2 salt nonce h1 h2 hne hs hn

/-- Witness for C5 at concrete inputs. -/
theorem wrong_password_rejected_witness :
    ([97] : List Nat) ≠ [98] ∧
      Decrypt (Encrypt [] [97] (List.replicate 32 1) (List.replicate 12 2))
        [98] = .error .errDecryptionFailed :=
  ⟨by decide,
    wrong_password_rejected [] [97] [98] (List.replicate 32 1)
      (List.replicate 12 2) (by decide) (by decide) (by decide) (by decide)
      (by decide)⟩

theorem GenerateKey_headD_ne_zero (pw salt : List Nat) (hs : salt.length = 32) :
    (GenerateKey pw salt).headD 0 ≠ 0 := by
  simp only [GenerateKey, List.headD_cons]
  intro h
  rw [pair_eq_zero_iff] at h
  cases salt with
  | nil => simp at hs
  | cons a t => exact encB_cons_ne_zero a t h.2

theorem gcmOpen_take_ne (k n p : List Nat) (t : Nat) (hk : k.headD 0 ≠ 0)
    (ht : t < p.length) :
    gcmOpen k n ((gcmSeal k n p).take (t + 16)) = none := by
  cases hres : gcmOpen k n ((gcmSeal k n p).take (t + 16)) with
  | none => rfl
  | some q =>
    exfalso
    have hseal := gcmOpen_sound hres
    have hlen : q.length = t := by
      have h2 := congrArg List.length hseal
      rw [gcmSeal_length, List.length_take, gcmSeal_length] at h2
      omega
    have h1 : (gcmSeal k n q)[t+1]? = some 0 := by
      show ((q.map (fun x => Nat.pair (k.headD 0) (Nat.pair (encB n) x))) ++
        (Nat.pair (k.headD 0) (Nat.pair (encB n) (encB q)) ::
          List.replicate 15 0))[t+1]? = some 0
      rw [List.getElem?_append_right (by simp [hlen])]
      have hidx : t + 1 -
          (q.map (fun x => Nat.pair (k.headD 0) (Nat.pair (encB n) x))).length
          = 1 := by
        simp [hlen]
      rw [hidx]
      simp [List.getElem?_replicate]
    have h2 : ((gcmSeal k n p).take (t + 16))[t+1]? = (gcmSeal k n p)[t+1]? :=
      List.getElem?_take_of_lt (by omega)
    rw [hseal] at h1
    rw [h2] at h1
    rcases Nat.lt_or_ge (t + 1) p.length with hcase | hcase
    · have h3 : (gcmSeal k n p)[t+1]? =
          some (Nat.pair (k.headD 0) (Nat.pair (encB n) p[t+1])) := by
        show ((p.map (fun x => Nat.pair (k.headD 0) (Nat.pair (encB n) x))) ++
          (Nat.pair (k.headD 0) (Nat.pair (encB n) (encB p)) ::
            List.replicate 15 0))[t+1]? = _
        rw [List.getElem?_append_left (by simpa using hcase), List.getElem?_map,
          List.getElem?_eq_getElem hcase]
        rfl
      rw [h3] at h1
      have h4 := Option.some_injective _ h1
      exact hk ((pair_eq_zero_iff _ _).mp h4).1
    · have hpt : p.length = t + 1 := by omega
      have h3 := gcmSeal_tag_fst k n p
      rw [hpt] at h3
      rw [h3] at h1
      have h4 := Option.some_injective _ h1
      exact hk ((pair_eq_zero_iff _ _).mp h4).1

/-- C6.  Truncation semantics (spec §8, §6; encryption.go:116-119, 176-180):
any prefix of a valid container shorter than 76 bytes is rejected as
`errTruncated`; any proper prefix of at least 76 bytes is rejected as
`errDecryptionFailed`; truncation never yields success. -/
theorem truncation_semantics (p pw salt nonce : List Nat) (m : Nat)
    (hs : salt.length = 32) (hn : nonce.length = 12) :
    (m < 76 →
      Decrypt ((Encrypt p pw salt nonce).take m) pw = .error .errTruncated) ∧
    (76 ≤ m → m < 76 + p.length →
      Decrypt ((Encrypt p pw salt nonce).take m) pw =
        .error .errDecryptionFailed) := by
  constructor
  · intro hm
    apply decrypt_too_short
    rw [List.length_take]
    omega
  · intro hm1 hm2
    rw [Encrypt_eq_mkContainer, mkContainer_assoc60]
    have hm60 : m =
        (((([80, 87, 66, 75, 0, 1, 0, 1] : List Nat) ++ List.replicate 8 0) ++
          salt) ++ nonce).length + (m - 60) := by
      simp [hs, hn]
      omega
    rw [hm60, List.take_append, ← mkContainer_assoc60]
    rw [Decrypt_mkContainer _ _ _ _ _ (by simp) hs hn (by
      rw [List.length_take, gcmSeal_length]
      omega)]
    have hsplit : m - 60 = (m - 76) + 16 := by omega
    rw [hsplit, gcmOpen_take_ne _ _ _ _
      (GenerateKey_headD_ne_zero pw salt hs) (by omega)]

/-- Witness for C6 at concrete inputs (both truncation regimes). -/
theorem truncation_semantics_witness :
    Decrypt ((Encrypt [0] [97] (List.replicate 32 1)
        (List.replicate 12 2)).take 10) [97] = .error .errTruncated ∧
      Decrypt ((Encrypt [0] [97] (List.replicate 32 1)
        (List.replicate 12 2)).take 76) [97] = .error .errDecryptionFailed :=
  ⟨(truncation_semantics [0] [97] (List.replicate 32 1) (List.replicate 12 2)
      10 (by decide) (by decide)).1 (by decide),
    (truncation_semantics [0] [97] (List.replicate 32 1) (List.replicate 12 2)
      76 (by decide) (by decide)).2 (by decide) (by decide)⟩

theorem decrypt_checks_passed (c pw : List Nat) (h76 : 76 ≤ c.length)
    (hm : c.take 4 = fileMagicBytes) (hv : 256 * c.getD 4 0 + c.getD 5 0 = 1)
    (ha : 256 * c.getD 6 0 + c.getD 7 0 = 1) :
    Decrypt c pw =
      match gcmOpen (GenerateKey pw ((c.drop 16).take saltLength))
          ((c.drop 48).take nonceLength) (c.drop 60) with
      | none => .error .errDecryptionFailed
      | some p => .ok p := by
  unfold Decrypt
  rw [if_neg (show ¬c.length < minContainerLength by
      simp only [minContainerLength]; omega),
    if_neg (show ¬c.take 4 ≠ fileMagicBytes from not_not_intro hm),
    if_neg (show ¬256 * c.getD 4 0 + c.getD 5 0 ≠ fileVersion from
      not_not_intro hv),
    if_neg (show ¬256 * c.getD 6 0 + c.getD 7 0 ≠ algorithmAES256GCM from
      not_not_intro ha),
    if_pos (Or.inr (Or.inr (GenerateKey_length pw _)))]

/-- C4.  Decode validation order (spec §4.2, §7; encryption.go:116-158): the
header checks run in the order minimum-length, magic, version, algorithm,
each short-circuiting with its own distinct error; and whenever a format
error is produced, the result is independent of the password — no key
derivation or decryption is attempted after a failed check. -/
theorem decrypt_validation_order (c pw : List Nat) :
    (c.length < 76 → Decrypt c pw = .error .errTruncated) ∧
    (76 ≤ c.length → c.take 4 ≠ fileMagicBytes →
      Decrypt c pw = .error .errBadMagic) ∧
    (76 ≤ c.length → c.take 4 = fileMagicBytes →
      256 * c.getD 4 0 + c.getD 5 0 ≠ 1 →
      Decrypt c pw = .error .errUnsupportedVersion) ∧
    (76 ≤ c.length → c.take 4 = fileMagicBytes →
      256 * c.getD 4 0 + c.getD 5 0 = 1 → 256 * c.getD 6 0 + c.getD 7 0 ≠ 1 →
      Decrypt c pw = .error .errUnsupportedAlgorithm) ∧
    ((Decrypt c pw = .error .errTruncated ∨ Decrypt c pw = .error .errBadMagic ∨
        Decrypt c pw = .error .errUnsupportedVersion ∨
        Decrypt c pw = .error .errUnsupportedAlgorithm) →
      ∀ pw', Decrypt c pw' = Decrypt c pw) := by
  refine ⟨decrypt_too_short c pw, decrypt_bad_magic c pw,
    decrypt_bad_version c pw, decrypt_bad_algorithm c pw, ?_⟩
  intro hfmt pw'
  by_cases hl : c.length < 76
  · rw [decrypt_too_short c pw' hl, decrypt_too_short c pw hl]
  · have h76 : 76 ≤ c.length := by omega
    by_cases hmg : c.take 4 = fileMagicBytes
    · by_cases hv : 256 * c.getD 4 0 + c.getD 5 0 = 1
      · by_cases ha : 256 * c.getD 6 0 + c.getD 7 0 = 1
        · exfalso
          rw [decrypt_checks_passed c pw h76 hmg hv ha] at hfmt
          cases hopen : gcmOpen (GenerateKey pw ((c.drop 16).take saltLength))
              ((c.drop 48).take nonceLength) (c.drop 60) with
          | none => rw [hopen] at hfmt; simp at hfmt
          | some q => rw [hopen] at hfmt; simp at hfmt
        · rw [decrypt_bad_algorithm c pw' h76 hmg hv ha,
            decrypt_bad_algorithm c pw h76 hmg hv ha]
      · rw [decrypt_bad_version c pw' h76 hmg hv,
          decrypt_bad_version c pw h76 hmg hv]
    · rw [decrypt_bad_magic c pw' h76 hmg, decrypt_bad_magic c pw h76 hmg]

/-- Witness for C4: each validation branch hit at a concrete input. -/
theorem decrypt_validation_order_witness :
    Decrypt [] [] = .error .errTruncated ∧
      Decrypt (List.replicate 76 0) [] = .error .errBadMagic ∧
      Decrypt (80 :: 87 :: 66 :: 75 :: 9 :: 9 :: List.replicate 70 0) [] =
        .error .errUnsupportedVersion ∧
      Decrypt (80 :: 87 :: 66 :: 75 :: 0 :: 1 :: 9 :: 9 ::
        List.replicate 68 0) [] = .error .errUnsupportedAlgorithm :=
  ⟨(decrypt_validation_order [] []).1 (by decide),
    (decrypt_validation_order (List.replicate 76 0) []).2.1 (by decide)
      (by decide),
    (decrypt_validation_order
      (80 :: 87 :: 66 :: 75 :: 9 :: 9 :: List.replicate 70 0) []).2.2.1
      (by decide) (by decide) (by decide),
    (decrypt_validation_order
      (80 :: 87 :: 66 :: 75 :: 0 :: 1 :: 9 :: 9 :: List.replicate 68 0)
      []).2.2.2.1 (by decide) (by decide) (by decide) (by decide)⟩

theorem mkContainer_eq_append (r s nn d : List Nat) :
    mkContainer r s nn d =
      ([80, 87, 66, 75, 0, 1, 0, 1] : List Nat) ++ (r ++ (s ++ (nn ++ d))) := rfl

theorem mkContainer_set_head (r s nn d : List Nat) (j v : Nat) (hj : j < 8) :
    (mkContainer r s nn d).set j v =
      (([80, 87, 66, 75, 0, 1, 0, 1] : List Nat).set j v) ++
        (r ++ (s ++ (nn ++ d))) := by
  rw [mkContainer_eq_append]
  exact List.set_append_left j v (by simpa using hj)

theorem mkContainer_getD_head (r s nn d : List Nat) (j : Nat) (hj : j < 8) :
    (mkContainer r s nn d).getD j 0 =
      ([80, 87, 66, 75, 0, 1, 0, 1] : List Nat).getD j 0 := by
  rw [mkContainer_eq_append]
  exact List.getD_append _ _ _ _ (by simpa using hj)

theorem mkContainer_set_reserved (r s nn d : List Nat) (j v : Nat)
    (hr : r.length = 8) (hj1 : 8 ≤ j) (hj2 : j < 16) :
    (mkContainer r s nn d).set j v = mkContainer (r.set (j - 8) v) s nn d := by
  rw [mkContainer_eq_append, List.set_append_right j v (by simp; omega),
    mkContainer_eq_append]
  congr 1
  have hidx : j - ([80, 87, 66, 75, 0, 1, 0, 1] : List Nat).length = j - 8 := by
    simp
  rw [hidx]
  exact List.set_append_left _ v (by omega)

theorem mkContainer_getD_reserved (r s nn d : List Nat) (j : Nat)
    (hr : r.length = 8) (hj1 : 8 ≤ j) (hj2 : j < 16) :
    (mkContainer r s nn d).getD j 0 = r.getD (j - 8) 0 := by
  rw [mkContainer_eq_append, List.getD_append_right _ _ _ _ (by simp; omega)]
  have hidx : j - ([80, 87, 66, 75, 0, 1, 0, 1] : List Nat).length = j - 8 := by
    simp
  rw [hidx]
  exact List.getD_append _ _ _ _ (by omega)

theorem mkContainer_set_salt (r s nn d : List Nat) (j v : Nat)
    (hr : r.length = 8) (hs : s.length = 32) (hj1 : 16 ≤ j) (hj2 : j < 48) :
    (mkContainer r s nn d).set j v = mkContainer r (s.set (j - 16) v) nn d := by
  rw [mkContainer_assoc16, List.set_append_right j v (by simp [hr]; omega),
    mkContainer_assoc16]
  congr 1
  have hidx : j - ((([80, 87, 66, 75, 0, 1, 0, 1] : List Nat) ++ r)).length =
      j - 16 := by simp [hr]
  rw [hidx]
  exact List.set_append_left _ v (by omega)

theorem mkContainer_getD_salt (r s nn d : List Nat) (j : Nat)
    (hr : r.length = 8) (hs : s.length = 32) (hj1 : 16 ≤ j) (hj2 : j < 48) :
    (mkContainer r s nn d).getD j 0 = s.getD (j - 16) 0 := by
  rw [mkContainer_assoc16, List.getD_append_right _ _ _ _ (by simp [hr]; omega)]
  have hidx : j - ((([80, 87, 66, 75, 0, 1, 0, 1] : List Nat) ++ r)).length =
      j - 16 := by simp [hr]
  rw [hidx]
  exact List.getD_append _ _ _ _ (by omega)

theorem mkContainer_set_nonce (r s nn d : List Nat) (j v : Nat)
    (hr : r.length = 8) (hs : s.length = 32) (hn : nn.length = 12)
    (hj1 : 48 ≤ j) (hj2 : j < 60) :
    (mkContainer r s nn d).set j v = mkContainer r s (nn.set (j - 48) v) d := by
  rw [mkContainer_assoc48, List.set_append_right j v (by simp [hr, hs]; omega),
    mkContainer_assoc48]
  congr 1
  have hidx : j - (((([80, 87, 66, 75, 0, 1, 0, 1] : List Nat) ++ r) ++ s)).length =
      j - 48 := by simp [hr, hs]
  rw [hidx]
  exact List.set_append_left _ v (by omega)

theorem mkContainer_getD_nonce (r s nn d : List Nat) (j : Nat)
    (hr : r.length = 8) (hs : s.length = 32) (hn : nn.length = 12)
    (hj1 : 48 ≤ j) (hj2 : j < 60) :
    (mkContainer r s nn d).getD j 0 = nn.getD (j - 48) 0 := by
  rw [mkContainer_assoc48, List.getD_append_right _ _ _ _ (by simp [hr, hs]; omega)]
  have hidx : j - (((([80, 87, 66, 75, 0, 1, 0, 1] : List Nat) ++ r) ++ s)).length =
      j - 48 := by simp [hr, hs]
  rw [hidx]
  exact List.getD_append _ _ _ _ (by omega)

theorem mkContainer_set_data (r s nn d : List Nat) (j v : Nat)
    (hr : r.length = 8) (hs : s.length = 32) (hn : nn.length = 12)
    (hj1 : 60 ≤ j) :
    (mkContainer r s nn d).set j v = mkContainer r s nn (d.set (j - 60) v) := by
  rw [mkContainer_assoc60, List.set_append_right j v (by simp [hr, hs, hn]; omega),
    mkContainer_assoc60]
  congr 1
  have hidx :
      j - ((((([80, 87, 66, 75, 0, 1, 0, 1] : List Nat) ++ r) ++ s) ++ nn)).length =
      j - 60 := by simp [hr, hs, hn]
  rw [hidx]

theorem mkContainer_getD_data (r s nn d : List Nat) (j : Nat)
    (hr : r.length = 8) (hs : s.length = 32) (hn : nn.length = 12)
    (hj1 : 60 ≤ j) :
    (mkContainer r s nn d).getD j 0 = d.getD (j - 60) 0 := by
  rw [mkContainer_assoc60, List.getD_append_right _ _ _ _ (by simp [hr, hs, hn]; omega)]
  have hidx :
      j - ((((([80, 87, 66, 75, 0, 1, 0, 1] : List Nat) ++ r) ++ s) ++ nn)).length =
      j - 60 := by simp [hr, hs, hn]
  rw [hidx]

/-- C2 (amended).  Single-bit-flip classification (spec §8 tamper detection;
encryption.go:115-183): flipping one bit of a sealed container yields
`errBadMagic` in the magic bytes, `errUnsupportedVersion` /
`errUnsupportedAlgorithm` in the version / algorithm bytes, and
`errDecryptionFailed` anywhere in salt, nonce, ciphertext or tag; but a flip
inside the 8 reserved bytes (offsets 8-15) is NOT detected: `Decrypt` skips
the reserved bytes (encryption.go:146-147) and the AEAD call does not cover
the header, so decryption succeeds and returns the original plaintext. -/
theorem single_bit_flip_classified (p pw salt nonce : List Nat)
    (hs : salt.length = 32) (hn : nonce.length = 12) (j b : Nat)
    (hj : j < 76 + p.length) (_hb : b < 8) :
    (j < 4 → Decrypt (flipBit (Encrypt p pw salt nonce) j b) pw =
      .error .errBadMagic) ∧
    (4 ≤ j → j < 6 → Decrypt (flipBit (Encrypt p pw salt nonce) j b) pw =
      .error .errUnsupportedVersion) ∧
    (6 ≤ j → j < 8 → Decrypt (flipBit (Encrypt p pw salt nonce) j b) pw =
      .error .errUnsupportedAlgorithm) ∧
    (8 ≤ j → j < 16 → Decrypt (flipBit (Encrypt p pw salt nonce) j b) pw =
      .ok p) ∧
    (16 ≤ j → Decrypt (flipBit (Encrypt p pw salt nonce) j b) pw =
      .error .errDecryptionFailed) := by
  have hdlen : (gcmSeal (GenerateKey pw salt) nonce p).length = p.length + 16 :=
    gcmSeal_length _ _ _
  refine ⟨?_, ?_, ?_, ?_, ?_⟩
  · -- magic bytes
    intro hj4
    unfold flipBit
    rw [Encrypt_eq_mkContainer, mkContainer_getD_head _ _ _ _ j (by omega),
      mkContainer_set_head _ _ _ _ j _ (by omega)]
    apply decrypt_bad_magic
    · simp [List.length_set, hs, hn, hdlen]
      omega
    · rw [List.take_append_of_le_length (by simp)]
      interval_cases j
      · simp [fileMagicBytes]
        exact xor_pow_ne 80 b
      · simp [fileMagicBytes]
        exact xor_pow_ne 87 b
      · simp [fileMagicBytes]
        exact xor_pow_ne 66 b
      · simp [fileMagicBytes]
        exact xor_pow_ne 75 b
  · -- version bytes
    intro hj1 hj2
    unfold flipBit
    rw [Encrypt_eq_mkContainer, mkContainer_getD_head _ _ _ _ j (by omega),
      mkContainer_set_head _ _ _ _ j _ (by omega)]
    apply decrypt_bad_version
    · simp [List.length_set, hs, hn, hdlen]
      omega
    · rw [List.take_append_of_le_length (by simp)]
      interval_cases j
      · rfl
      · rfl
    · rw [List.getD_append _ _ _ _ (by simp),
        List.getD_append _ _ _ _ (by simp)]
      interval_cases j
      · show 256 * ((0:Nat) ^^^ 2 ^ b) + 1 ≠ 1
        rw [Nat.zero_xor]
        have hpow : 0 < 2 ^ b := Nat.pow_pos (by norm_num)
        omega
      · show 256 * 0 + ((1:Nat) ^^^ 2 ^ b) ≠ 1
        have h1 := xor_pow_ne 1 b
        omega
  · -- algorithm bytes
    intro hj1 hj2
    unfold flipBit
    rw [Encrypt_eq_mkContainer, mkContainer_getD_head _ _ _ _ j (by omega),
      mkContainer_set_head _ _ _ _ j _ (by omega)]
    apply decrypt_bad_algorithm
    · simp [List.length_set, hs, hn, hdlen]
      omega
    · rw [List.take_append_of_le_length (by simp)]
      interval_cases j
      · rfl
      · rfl
    · rw [List.getD_append _ _ _ _ (by simp),
        List.getD_append _ _ _ _ (by simp)]
      interval_cases j
      · rfl
      · rfl
    · rw [List.getD_append _ _ _ _ (by simp),
        List.getD_append _ _ _ _ (by simp)]
      interval_cases j
      · show 256 * ((0:Nat) ^^^ 2 ^ b) + 1 ≠ 1
        rw [Nat.zero_xor]
        have hpow : 0 < 2 ^ b := Nat.pow_pos (by norm_num)
        omega
      · show 256 * 0 + ((1:Nat) ^^^ 2 ^ b) ≠ 1
        have h1 := xor_pow_ne 1 b
        omega
  · -- reserved bytes: the flip is ignored and decryption succeeds
    intro hj1 hj2
    unfold flipBit
    rw [Encrypt_eq_mkContainer,
      mkContainer_set_reserved _ _ _ _ j _ (by simp) hj1 hj2,
      Decrypt_mkContainer _ _ _ _ _ (by simp) hs hn (by omega),
      gcmOpen_gcmSeal]
  · -- salt, nonce, ciphertext and tag bytes: authentication fails
    intro hj16
    unfold flipBit
    rcases Nat.lt_or_ge j 48 with hj48 | hj48
    · rw [Encrypt_eq_mkContainer,
        mkContainer_getD_salt _ _ _ _ j (by simp) hs hj16 hj48,
        mkContainer_set_salt _ _ _ _ j _ (by simp) hs hj16 hj48,
        Decrypt_mkContainer _ _ _ _ _ (by simp) (by simp [List.length_set, hs])
          hn (by omega),
        gcmOpen_seal_mismatch p (Or.inl ?_)]
      simp only [GenerateKey, List.headD_cons]
      intro hEq
      exact encB_set_ne salt (j - 16) _ (by omega) (xor_pow_ne _ b)
        (pair_inj hEq).2
    · rcases Nat.lt_or_ge j 60 with hj60 | hj60
      · rw [Encrypt_eq_mkContainer,
          mkContainer_getD_nonce _ _ _ _ j (by simp) hs hn hj48 hj60,
          mkContainer_set_nonce _ _ _ _ j _ (by simp) hs hn hj48 hj60,
          Decrypt_mkContainer _ _ _ _ _ (by simp) hs
            (by simp [List.length_set, hn]) (by omega),
          gcmOpen_seal_mismatch p (Or.inr ?_)]
        exact encB_set_ne nonce (j - 48) _ (by omega) (xor_pow_ne _ b)
      · rw [Encrypt_eq_mkContainer,
          mkContainer_getD_data _ _ _ _ j (by simp) hs hn hj60,
          mkContainer_set_data _ _ _ _ j _ (by simp) hs hn hj60,
          Decrypt_mkContainer _ _ _ _ _ (by simp) hs hn
            (by rw [List.length_set, gcmSeal_length]; omega),
          gcmOpen_set_ne _ _ p (j - 60) _ (by omega) (xor_pow_ne _ b)]

/-- Counterexample for C2 as stated: flipping bit 0 of byte 8 (the first
reserved byte) of a sealed container produces a genuinely different buffer,
yet `Decrypt` succeeds and returns the plaintext — the claim's "never a
successful result" is false for the reserved bytes, which `Decrypt` skips
(encryption.go:146-147) and which the AEAD tag does not cover
(encryption.go:87 passes nil additional data). -/
theorem tamper_reserved_bit_accepted :
    flipBit (Encrypt [] [97] (List.replicate 32 1) (List.replicate 12 2)) 8 0 ≠
      Encrypt [] [97] (List.replicate 32 1) (List.replicate 12 2) ∧
    Decrypt (flipBit (Encrypt [] [97] (List.replicate 32 1)
      (List.replicate 12 2)) 8 0) [97] = .ok [] := by
  constructor
  · decide
  · decide

/-- Witness for the amended C2 at a concrete input. -/
theorem single_bit_flip_classified_witness :
    Decrypt (flipBit (Encrypt [] [97] (List.replicate 32 1)
      (List.replicate 12 2)) 0 0) [97] = .error .errBadMagic :=
  (single_bit_flip_classified [] [97] (List.replicate 32 1)
    (List.replicate 12 2) (by decide) (by decide) 0 0 (by decide)
    (by decide)).1 (by decide)

theorem EncryptRun_ok (p pw salt nonce : List Nat) :
    EncryptRun p pw (some salt) (some nonce) =
      (.ok (Encrypt p pw salt nonce), some (List.replicate 32 0)) := by
  simp [EncryptRun, Encrypt, GenerateKey_length]

theorem decryptRun_clears (c pw : List Nat) (res : Except GoErr (List Nat))
    (k : List Nat) (h : DecryptRun c pw = (res, some k)) :
    k = List.replicate 32 0 := by
  unfold DecryptRun at h
  by_cases h1 : c.length < minContainerLength
  · rw [if_pos h1] at h
    simp at h
  · rw [if_neg h1] at h
    by_cases h2 : c.take 4 ≠ fileMagicBytes
    · rw [if_pos h2] at h
      simp at h
    · rw [if_neg h2] at h
      by_cases h3 : 256 * c.getD 4 0 + c.getD 5 0 ≠ fileVersion
      · rw [if_pos h3] at h
        simp at h
      · rw [if_neg h3] at h
        by_cases h4 : 256 * c.getD 6 0 + c.getD 7 0 ≠ algorithmAES256GCM
        · rw [if_pos h4] at h
          simp at h
        · rw [if_neg h4] at h
          rw [if_pos (Or.inr (Or.inr (GenerateKey_length pw _)))] at h
          cases hopen : gcmOpen (GenerateKey pw ((c.drop 16).take saltLength))
              ((c.drop 48).take nonceLength) (c.drop 60) with
          | none =>
            rw [hopen] at h
            simp [GenerateKey_length] at h
            exact h.2.symm
          | some q =>
            rw [hopen] at h
            simp [GenerateKey_length] at h
            exact h.2.symm

/-- C3 (code bug).  Key hygiene on `Encrypt`'s failure paths (spec §4.1,
§4.3.5, §7; encryption.go:58-112): when nonce generation fails after the key
has been derived (encryption.go:82-84), `Encrypt` returns the error with the
derived-key buffer still holding the (non-zero) key — `clearBytes(key)` runs
only on the success path (line 109), unlike `Decrypt`, which registers
`defer clearBytes(key)` (line 162) and therefore zeroes the buffer on every
exit.  This evaluates the code at the failing input. -/
theorem encrypt_key_not_cleared_on_nonce_failure :
    EncryptRun [] [97] (some (List.replicate 32 1)) none =
      (.error (.wrap "failed to generate nonce" .errEntropy),
        some (GenerateKey [97] (List.replicate 32 1))) ∧
    GenerateKey [97] (List.replicate 32 1) ≠ List.replicate 32 0 := by
  constructor
  · decide
  · decide

/-- C8 (amended).  `LoadEncryptionKey` under a wrong password
(encryption.go:257-272): the authentication failure from `Decrypt` is
preserved as the cause, but re-wrapped in "failed to decrypt key" context
(line 268), not returned unchanged. -/
theorem load_key_wrong_password (p pw1 pw2 salt nonce : List Nat)
    (h1 : ∀ x ∈ pw1, x < 256) (h2 : ∀ x ∈ pw2, x < 256) (hne : pw1 ≠ pw2)
    (hs : salt.length = 32) (hn : nonce.length = 12) :
    LoadEncryptionKey (some (Encrypt p pw1 salt nonce)) pw2 =
      .error (.wrap "failed to decrypt key" .errDecryptionFailed) := by
  simp only [LoadEncryptionKey]
  rw [decrypt_wrong_password_aux p pw1 pw2 salt nonce h1 h2 hne hs hn]

/-- Witness for the amended C8 at concrete inputs. -/
theorem load_key_wrong_password_witness :
    ([97] : List Nat) ≠ [98] ∧
      LoadEncryptionKey (some (Encrypt [] [97] (List.replicate 32 1)
        (List.replicate 12 2))) [98] =
        .error (.wrap "failed to decrypt key" .errDecryptionFailed) :=
  ⟨by decide,
    load_key_wrong_password [] [97] [98] (List.replicate 32 1)
      (List.replicate 12 2) (by decide) (by decide) (by decide) (by decide)
      (by decide)⟩

/-- Counterexample for C8 as stated: at a concrete key file sealed under
"a" and opened with "b", the returned error is the wrapping error, which is
a different error value from the bare `errDecryptionFailed` — the error is
re-wrapped (encryption.go:268), not propagated unchanged. -/
theorem load_key_error_rewrapped :
    LoadEncryptionKey (some (Encrypt [] [97] (List.replicate 32 1)
        (List.replicate 12 2))) [98] =
      .error (.wrap "failed to decrypt key" .errDecryptionFailed) ∧
    GoErr.wrap "failed to decrypt key" .errDecryptionFailed ≠
      .errDecryptionFailed := by
  constructor
  · decide
  · decide

/-- C9 (amended).  `GetOrCreateEncryptionKey` when the existence probe fails
(encryption.go:230-255): a stat failure other than not-exist makes
`os.IsNotExist(err)` false, so the creation block is skipped and the
function returns nil — the probe's failure is discarded, for every password
and every outcome of the randomness and the write. -/
theorem get_or_create_stat_error_ignored (pw : List Nat)
    (keyR saltR nonceR : Option (List Nat)) (w : Bool) :
    GetOrCreateEncryptionKey .statFailed pw keyR saltR nonceR w =
      (.ok (), none) := rfl

/-- Counterexample for C9 as stated: at a concrete call where the existence
check fails (e.g. a permission error), the function returns `(.ok (), none)`
— no error is returned to the caller, contradicting "that failure is
returned to the caller rather than discarded with a nil result". -/
theorem get_or_create_swallows_stat_error :
    GetOrCreateEncryptionKey .statFailed [97] (some (List.replicate 32 3))
      (some (List.replicate 32 1)) (some (List.replicate 12 2)) true =
      (.ok (), none) := rfl

/-- C10.  `GetOrCreateEncryptionKey` is a no-op when the key file exists
(spec §4.4, §6; encryption.go:232, 252-254): for every password and every
outcome of the randomness and the write, it returns nil and writes nothing,
leaving the existing file's contents unchanged — repeated calls are
idempotent with respect to the file's contents. -/
theorem get_or_create_existing_noop (pw : List Nat)
    (keyR saltR nonceR : Option (List Nat)) (w : Bool) :
    GetOrCreateEncryptionKey .statExists pw keyR saltR nonceR w =
      (.ok (), none) := rfl
